import Mathlib

/-!
# Verification of the coro-http request pipeline against its specification

Shallow embedding of the `coro_http` C++ library (headers under
`src/include/coro_http/` and the helpers `decode_chunked`, `HttpResponse`):
server-sent-event parsing, chunked-body decoding, the retry policy, header
lookup, and the redirect-following executor.  Strings are modelled as
`List Char`; the transport layer is abstracted as an oracle mapping a request
to a response, with one socket construction counted per oracle call (exactly
what `execute_http` / `co_execute_http` do: they build a fresh
`asio::ip::tcp::socket` on every invocation).
-/

namespace CoroHttp

/-- Byte strings of the C++ code, modelled as lists of characters. -/
abbrev Str := List Char

/-- Convert a Lean string literal to the model's string type. -/
def ofStr (s : String) : Str := s.toList

/-- Model of `std::string::find(pat) != npos`: does `pat` occur as a contiguous
substring of `s`? -/
def strContains (s pat : Str) : Bool :=
  match s with
  | [] => pat.isEmpty
  | _ :: rest => pat.isPrefixOf s || strContains rest pat

/-- Split on `'\n'`, keeping every (possibly empty) segment; the result is
nonempty and has one more element than the number of newlines. -/
def splitOnNL : Str → List Str
  | [] => [[]]
  | c :: rest =>
    if c = '\n' then [] :: splitOnNL rest
    else
      match splitOnNL rest with
      | [] => [[c]]
      | l :: ls => (c :: l) :: ls

/-- The sequence of lines produced by repeatedly calling `std::getline`
with delimiter `'\n'` on an `istringstream` over `s`: the final segment is
dropped when `s` ends with a newline (no empty trailing line), and an empty
stream yields no lines at all. -/
def getlines (s : Str) : List Str :=
  match s with
  | [] => []
  | _ =>
    if s.getLastD 'x' = '\n' then (splitOnNL s).dropLast
    else splitOnNL s

/-- Model of `std::tolower` in the C locale, on the ASCII range. -/
def lowerChar (c : Char) : Char :=
  if 65 ≤ c.toNat ∧ c.toNat ≤ 90 then Char.ofNat (c.toNat + 32) else c

end CoroHttp

namespace CoroHttp

/-! ## Server-sent events (`compression.hpp`, SSE section) -/

/-- Structure `SseEvent` from `compression.hpp`: event type, joined data, id, retry
hint and the map of unrecognized fields (a `std::map`, here a sorted
association list built by `fieldsInsert`). -/
structure SseEvent where
  type : Str
  data : Str
  id : Str
  retry : Str
  fields : List (Str × Str)
deriving DecidableEq, Repr

/-- The default-constructed `SseEvent{}`. -/
def SseEvent.init : SseEvent := ⟨[], [], [], [], []⟩

/-- Predicate `SseEvent::empty()`: true when `data`, `type` and `id` are all empty.
Note that `retry` (and the custom-field map) are NOT consulted. -/
def SseEvent.empty (e : SseEvent) : Bool :=
  e.data.isEmpty && e.type.isEmpty && e.id.isEmpty

/-- Lexicographic strict order on strings by character code, the order
`std::map<std::string, _>` keeps its keys in. -/
def strLt : Str → Str → Bool
  | [], [] => false
  | [], _ :: _ => true
  | _ :: _, [] => false
  | a :: as, b :: bs =>
    if a.toNat < b.toNat then true
    else if b.toNat < a.toNat then false
    else strLt as bs

/-- Operation `map[field] = value` on a `std::map` kept as a sorted association
list: insert or assign, preserving key order. -/
def fieldsInsert (k v : Str) : List (Str × Str) → List (Str × Str)
  | [] => [(k, v)]
  | (k', v') :: rest =>
    if strLt k k' then (k, v) :: (k', v') :: rest
    else if k = k' then (k, v) :: rest
    else (k', v') :: fieldsInsert k v rest

/-- Tail of the data-joining loop: every remaining line is preceded by a
`'\n'` separator. -/
def joinDataAux (data : Str) : List Str → Str
  | [] => data
  | l :: rest => joinDataAux (data ++ '\n' :: l) rest

/-- The `current_event.data += data_lines[i]` loop: join the accumulated data
lines onto an existing data string, separating consecutive lines with a
single `'\n'` (no separator before the first line). -/
def joinDataOnto (data : Str) (lines : List Str) : Str :=
  match lines with
  | [] => data
  | l :: rest => joinDataAux (data ++ l) rest

/-- Parser state threaded through the SSE loop: the event being
accumulated, its pending `data` lines, and the events dispatched so far. -/
structure SseState where
  current : SseEvent
  dataLines : List Str
  events : List SseEvent
deriving DecidableEq, Repr

/-- The empty initial SSE parser state. -/
def SseState.init : SseState := ⟨SseEvent.init, [], []⟩

/-- Loop body of `parse_sse_stream`: process one `getline` result.
Strips one trailing `'\r'`; a blank line dispatches the accumulated event
when any of `data`/`type`/`id`/`retry` was set, pushing it only if
`SseEvent::empty()` is false; `:`-lines are comments; otherwise the line is
split at the first `':'` (one leading space of the value stripped) and the
field is stored. -/
def sseStreamStep (st : SseState) (line0 : Str) : SseState :=
  let line := if line0 ≠ [] ∧ line0.getLastD 'x' = '\r' then line0.dropLast else line0
  if line = [] then
    if st.dataLines ≠ [] ∨ st.current.type ≠ [] ∨ st.current.id ≠ [] ∨
        st.current.retry ≠ [] then
      let ev := { st.current with data := joinDataOnto st.current.data st.dataLines }
      { current := SseEvent.init, dataLines := [],
        events := if ev.empty then st.events else st.events ++ [ev] }
    else st
  else if line.headD 'x' = ':' then st
  else
    let colonPos := line.findIdx (· = ':')
    let field := line.take colonPos
    let rawValue := line.drop (colonPos + 1)
    let value := if rawValue.headD 'x' = ' ' then rawValue.drop 1 else rawValue
    if field = ofStr "event" then { st with current := { st.current with type := value } }
    else if field = ofStr "data" then { st with dataLines := st.dataLines ++ [value] }
    else if field = ofStr "id" then { st with current := { st.current with id := value } }
    else if field = ofStr "retry" then { st with current := { st.current with retry := value } }
    else { st with current := { st.current with fields := fieldsInsert field value st.current.fields } }

/-- Trailing-event handling at the end of `parse_sse_stream`: dispatch a
last unterminated event under the same guards as a blank line. -/
def sseStreamFinish (st : SseState) : List SseEvent :=
  if st.dataLines ≠ [] ∨ st.current.type ≠ [] ∨ st.current.id ≠ [] ∨
      st.current.retry ≠ [] then
    let ev := { st.current with data := joinDataOnto st.current.data st.dataLines }
    if ev.empty then st.events else st.events ++ [ev]
  else st.events

/-- Function `parse_sse_stream` from `compression.hpp`: split the whole body into
`getline` lines, run the accumulating loop, then dispatch a trailing
unterminated event. -/
def parse_sse_stream (s : Str) : List SseEvent :=
  sseStreamFinish (List.foldl sseStreamStep SseState.init (getlines s))

/-- Function `parse_sse_line` from `compression.hpp`: the incremental single-line
parser, a verbatim copy of the stream parser's loop body (the C++ function
duplicates that code; it has no end-of-stream handling). -/
def parse_sse_line (st : SseState) (line0 : Str) : SseState :=
  let line := if line0 ≠ [] ∧ line0.getLastD 'x' = '\r' then line0.dropLast else line0
  if line = [] then
    if st.dataLines ≠ [] ∨ st.current.type ≠ [] ∨ st.current.id ≠ [] ∨
        st.current.retry ≠ [] then
      let ev := { st.current with data := joinDataOnto st.current.data st.dataLines }
      { current := SseEvent.init, dataLines := [],
        events := if ev.empty then st.events else st.events ++ [ev] }
    else st
  else if line.headD 'x' = ':' then st
  else
    let colonPos := line.findIdx (· = ':')
    let field := line.take colonPos
    let rawValue := line.drop (colonPos + 1)
    let value := if rawValue.headD 'x' = ' ' then rawValue.drop 1 else rawValue
    if field = ofStr "event" then { st with current := { st.current with type := value } }
    else if field = ofStr "data" then { st with dataLines := st.dataLines ++ [value] }
    else if field = ofStr "id" then { st with current := { st.current with id := value } }
    else if field = ofStr "retry" then { st with current := { st.current with retry := value } }
    else { st with current := { st.current with fields := fieldsInsert field value st.current.fields } }

/-- Feed a list of lines one at a time to the incremental parser
`parse_sse_line`, starting from the empty state, and collect the events
dispatched along the way. -/
def sseFeedLines (lines : List Str) : List SseEvent :=
  (List.foldl parse_sse_line SseState.init lines).events

end CoroHttp

namespace CoroHttp

/-! ## Chunked transfer decoding (`decode_chunked`) -/

/-- Is `c` a hexadecimal digit? -/
def isHexDigitC (c : Char) : Bool :=
  ('0' ≤ c ∧ c ≤ '9') ∨ ('a' ≤ c ∧ c ≤ 'f') ∨ ('A' ≤ c ∧ c ≤ 'F')

/-- Numeric value of a hexadecimal digit. -/
def hexVal (c : Char) : Nat :=
  if '0' ≤ c ∧ c ≤ '9' then c.toNat - 48
  else if 'a' ≤ c ∧ c ≤ 'f' then c.toNat - 87
  else if 'A' ≤ c ∧ c ≤ 'F' then c.toNat - 55
  else 0

/-- Model of `std::stoul(line, nullptr, 16)` as used on chunk-size lines: skip
leading blanks, read the maximal run of hex digits (a chunk extension after
`';'` is ignored, as `stoul` stops there), fail (`std::invalid_argument`,
caught and turned into loop exit) when no digit is present.  The `0x`
prefix and sign forms never occur in chunked framing and are not modelled. -/
def stoul16 (s : Str) : Option Nat :=
  let t := s.dropWhile (fun c => c = ' ' ∨ c = '\t')
  let digits := t.takeWhile isHexDigitC
  if digits = [] then none
  else some (digits.foldl (fun acc c => 16 * acc + hexVal c) 0)

/-- One `std::getline(stream, line)` on the remaining input: the line up to
(excluding) the first `'\n'`, and the rest after that `'\n'`. -/
def getlineStep (s : Str) : Str × Str :=
  (s.takeWhile (· ≠ '\n'), (s.dropWhile (· ≠ '\n')).drop 1)

/-- Loop of `decode_chunked`, on the remaining input and the accumulated
body.  `none` records the out-of-bounds access the C++ performs: when a
`getline` yields an empty line, `line.back()` is evaluated BEFORE the
`line.empty()` check (undefined behavior on an empty `std::string`).
A short `stream.read` pads the chunk with `'\0'` and poisons the stream
(failbit), ending the loop; fuel `|s| + 1` is never exhausted since every
iteration consumes at least one character. -/
def decodeChunkedLoop : Nat → Str → Str → Option Str
  | 0, _, acc => some acc
  | fuel + 1, rem, acc =>
    if rem = [] then some acc
    else
      let (line0, rem1) := getlineStep rem
      if line0 = [] then none
      else
        let line := if line0.getLastD 'x' = '\r' then line0.dropLast else line0
        if line = [] then decodeChunkedLoop fuel rem1 acc
        else
          match stoul16 line with
          | none => some acc
          | some 0 => some acc
          | some n =>
            let taken := rem1.take n
            if rem1.length < n then
              some (acc ++ taken ++ List.replicate (n - rem1.length) (Char.ofNat 0))
            else
              let rem2 := rem1.drop n
              if rem2 = [] then some (acc ++ taken)
              else decodeChunkedLoop fuel (getlineStep rem2).2 (acc ++ taken)

/-- Function `decode_chunked` from the HTTP parser header: hex size line, chunk
bytes, CRLF, until a zero-size chunk; `some` is the decoded body, `none`
marks the out-of-bounds `line.back()` access on an empty line. -/
def decode_chunked (s : Str) : Option Str :=
  decodeChunkedLoop (s.length + 1) s []

/-! ## Retry policy (`RetryPolicy` in `compression.hpp`) -/

/-- The spec's error taxonomy (§7), a tagged variant.  The C++ signature
takes `const std::exception&`; the tag records how the error was
constructed and `what` its message, which is all `should_retry` reads. -/
inductive ErrorKind
  | invalidUrl | resolveError | connectError | tlsError | timeoutKind
  | protocolFailure | decodeFailure | bodyTooLarge | cancelled | otherKind
deriving DecidableEq, Repr

/-- An error value as surfaced to `should_retry`: its kind tag and the
`what()` message string. -/
structure HttpError where
  kind : ErrorKind
  what : Str
deriving DecidableEq, Repr

/-- Fields of `RetryPolicy`.  Durations are millisecond counts; the
`double backoff_factor_` is idealized as a rational. -/
structure RetryPolicy where
  max_retries : Int
  initial_delay : Int
  backoff_factor : ℚ
  max_delay : Int
  retry_on_timeout : Bool
  retry_on_connection_error : Bool
  retry_on_5xx : Bool
  current_attempt : Int

/-- Method `RetryPolicy::should_retry`: false once `current_attempt_ ≥
max_retries_`; otherwise substring tests on `e.what()` for the timeout and
connection families, then the `5xx` status range.  The kind tag is never
consulted. -/
def should_retry (p : RetryPolicy) (e : HttpError) (status_code : Int) : Bool :=
  if p.max_retries ≤ p.current_attempt then false
  else if p.retry_on_timeout &&
      (strContains e.what (ofStr "timeout") || strContains e.what (ofStr "Timeout") ||
        strContains e.what (ofStr "timed out")) then true
  else if p.retry_on_connection_error &&
      (strContains e.what (ofStr "Connection") || strContains e.what (ofStr "connection") ||
        strContains e.what (ofStr "refused") || strContains e.what (ofStr "reset") ||
        strContains e.what (ofStr "broken pipe") || strContains e.what (ofStr "network")) then true
  else if p.retry_on_5xx && decide (500 ≤ status_code) && decide (status_code < 600) then true
  else false

/-- Model of `static_cast<long long>` applied to a nonnegative real: truncation
toward zero. -/
def truncToward0 (x : ℚ) : Int :=
  if 0 ≤ x then ⌊x⌋ else ⌈x⌉

/-- Method `RetryPolicy::get_delay`: attempt 0 returns `initial_delay_` exactly;
for later attempts, `initial · factor^attempt` scaled by the drawn jitter,
truncated to whole milliseconds by the `static_cast<long long>`, then
capped at `max_delay_`.  The jitter drawn from
`uniform_real_distribution(0.75, 1.25)` is passed explicitly. -/
def get_delay (p : RetryPolicy) (jitter : ℚ) : Int :=
  if p.current_attempt = 0 then p.initial_delay
  else
    let base : ℚ := (p.initial_delay : ℚ) * p.backoff_factor ^ p.current_attempt
    let delay := truncToward0 (base * jitter)
    if p.max_delay < delay then p.max_delay else delay

end CoroHttp

namespace CoroHttp

/-! ## Responses and header lookup (`http_response.hpp`) -/

/-- Function `strcasecmp_impl`: equal length and pointwise equality after
`std::tolower` on each character. -/
def strcasecmp_impl (a b : Str) : Bool :=
  a.length == b.length && (List.zip a b).all (fun p => lowerChar p.1 == lowerChar p.2)

/-- Structure `HttpResponse`: status code, reason phrase, header map
(`std::map<std::string, std::string>`, modelled as an association list in
its key-sorted iteration order), body, and the redirect chain. -/
structure HttpResponse where
  status_code : Int
  reason : Str
  headers : List (Str × Str)
  body : Str
  redirect_chain : List Str
deriving DecidableEq, Repr

/-- Method `HttpResponse::get_header`: first `headers_.find(key)` (exact,
case-sensitive); on miss, scan the map in iteration order for the first
case-insensitive match; otherwise return the empty string. -/
def HttpResponse.get_header (r : HttpResponse) (key : Str) : Str :=
  match r.headers.lookup key with
  | some v => v
  | none =>
    match r.headers.find? (fun kv => strcasecmp_impl kv.1 key) with
    | some kv => kv.2
    | none => []

/-- Method `HttpResponse::add_redirect`: push a URL onto the redirect chain. -/
def HttpResponse.add_redirect (r : HttpResponse) (url : Str) : HttpResponse :=
  { r with redirect_chain := r.redirect_chain ++ [url] }

/-! ## Requests, configuration and URLs

`http_request.hpp`, `client_config.hpp` and `url_parser.hpp` are part of
this repository but are not among the provided sources (only their callers
are), so the definitions below are modelled from the spec. -/

/-- Enumeration `HttpMethod` (spec §3: GET, POST, PUT, DELETE, HEAD, PATCH, OPTIONS). -/
inductive HttpMethod
  | GET | POST | PUT | DELETE | HEAD | PATCH | OPTIONS
deriving DecidableEq, Repr

/-- Modelled from the spec: `http_request.hpp` is not in the provided
sources.  Per spec §3 a request is a method, an absolute URL and an ordered
mapping of header name to value. -/
structure HttpRequest where
  method : HttpMethod
  url : Str
  headers : List (Str × Str)
deriving DecidableEq, Repr

/-- Modelled from the spec: `HttpRequest::add_header` appends to the
ordered header mapping. -/
def HttpRequest.add_header (r : HttpRequest) (k v : Str) : HttpRequest :=
  { r with headers := r.headers ++ [(k, v)] }

/-- Modelled from the spec: `client_config.hpp` is not in the provided
sources.  Only the fields the redirect logic reads are needed here
(spec §3: `follow_redirects`, `max_redirects`, default 10 hops). -/
structure ClientConfig where
  follow_redirects : Bool
  max_redirects : Int

/-- Modelled from the spec: `UrlInfo` (spec §3) — scheme, host, port
(defaulted to 80/443 from the scheme), path+query defaulted to "/", and the
`is_secure` flag (named `is_https` by the callers in `http_client.hpp`). -/
structure UrlInfo where
  scheme : Str
  host : Str
  port : Str
  path : Str
  is_https : Bool
deriving DecidableEq, Repr

/-- Split an absolute URL at the first `"://"` occurrence. -/
def splitScheme : Str → Option (Str × Str)
  | [] => none
  | c :: rest =>
    if (ofStr "://").isPrefixOf (c :: rest) then some ([], rest.drop 2)
    else
      match splitScheme rest with
      | some (a, b) => some (c :: a, b)
      | none => none

/-- Modelled from the spec: `parse_url` from the missing `url_parser.hpp`,
per spec §3/§4.1 — scheme before `"://"`, then host, optional `:port`
(defaulted from the scheme), then path+query defaulted to `"/"`.  The
`InvalidUrl` failure path is immaterial to the claims settled here; an
unparsable URL yields a record with an empty scheme. -/
def parse_url (u : Str) : UrlInfo :=
  match splitScheme u with
  | none => ⟨[], [], [], ofStr "/", false⟩
  | some (scheme, rest) =>
    let hostport := rest.takeWhile (· ≠ '/')
    let rawPath := rest.dropWhile (· ≠ '/')
    let host := hostport.takeWhile (· ≠ ':')
    let portRaw := (hostport.dropWhile (· ≠ ':')).drop 1
    let is_https := scheme = ofStr "https"
    let port := if portRaw = [] then (if is_https then ofStr "443" else ofStr "80") else portRaw
    ⟨scheme, host, port, if rawPath = [] then ofStr "/" else rawPath, is_https⟩

/-! ## The request executor (`http_client.hpp` / `coro_http_client.hpp`) -/

/-- A transport oracle: what one full request/response round trip over a
freshly opened socket returns.  It abstracts resolver + connect + write +
read + `parse_response` in `execute_http` / `execute_https` (and their
`co_` twins, which differ only in suspension). -/
abbrev NetOracle := HttpRequest → HttpResponse

/-- One call to `execute_http` / `execute_https`: construct a fresh
`asio::ip::tcp::socket`, perform the round trip, and report the response
together with the number of sockets constructed — always exactly 1; no
pool is consulted anywhere in either client. -/
def executeAttempt (net : NetOracle) (req : HttpRequest) : HttpResponse × Nat :=
  (net req, 1)

/-- The follow-up request synthesized for a redirect:
`HttpRequest redirect_req(HttpMethod::GET, location)` followed by
`add_header` for every header of the original request — the method is
unconditionally `GET`. -/
def redirectRequest (req : HttpRequest) (location : Str) : HttpRequest :=
  List.foldl (fun r kv => r.add_header kv.1 kv.2)
    ⟨HttpMethod.GET, location, []⟩ req.headers

/-- Resolution of a path-only `Location` against the current origin:
`scheme://host[:port]location`, the port elided when it equals the
scheme's default. -/
def resolveLocation (u : UrlInfo) (location : Str) : Str :=
  if location.headD 'x' = '/' then
    u.scheme ++ ofStr "://" ++ u.host ++
      (if u.port ≠ (if u.is_https then ofStr "443" else ofStr "80") then ':' :: u.port else []) ++
      location
  else location

/-- Method `execute_with_redirects(request, redirect_count)` (identical in the
blocking and coroutine clients): one attempt, then — only when
`follow_redirects` holds, `redirect_count < max_redirects` and the status
is in [300, 400) with a nonempty `Location` — record the location, resolve
it, synthesize a GET carrying the original headers, recurse with
`redirect_count + 1`, and append the outer chain to the inner response.
The second component counts socket constructions.  The structural `fuel`
only bounds the recursion; from `execute` it starts at
`max_redirects.toNat + 1` and the `redirect_count < max_redirects` guard
keeps it from ever reaching the (dead) base case. -/
def executeWithRedirects (cfg : ClientConfig) (net : NetOracle) :
    Nat → HttpRequest → Int → HttpResponse × Nat
  | 0, req, _ => executeAttempt net req
  | fuel + 1, req, redirect_count =>
    let url_info := parse_url req.url
    let (response, opened) := executeAttempt net req
    if cfg.follow_redirects ∧ redirect_count < cfg.max_redirects ∧
        300 ≤ response.status_code ∧ response.status_code < 400 then
      let location := response.get_header (ofStr "Location")
      if location ≠ [] then
        let response := response.add_redirect location
        let location := resolveLocation url_info location
        let redirect_req := redirectRequest req location
        let inner := executeWithRedirects cfg net fuel redirect_req (redirect_count + 1)
        (List.foldl HttpResponse.add_redirect inner.1 response.redirect_chain,
          opened + inner.2)
      else (response, opened)
    else (response, opened)

/-- Method `HttpClient::execute` / `CoroHttpClient::co_execute`: run the redirect
traversal from hop count 0; also reports the total number of socket
constructions performed. -/
def execute (cfg : ClientConfig) (net : NetOracle) (req : HttpRequest) :
    HttpResponse × Nat :=
  executeWithRedirects cfg net (cfg.max_redirects.toNat + 1) req 0

/-- Sockets constructed over a sequence of `execute` calls issued one
after the other on the same client. -/
def runSequential (cfg : ClientConfig) (net : NetOracle) : List HttpRequest → Nat
  | [] => 0
  | r :: rs => (execute cfg net r).2 + runSequential cfg net rs

end CoroHttp

namespace CoroHttp

/-! ## Concrete transport oracles used in the scenarios -/

/-- Name of a method on the wire. -/
def methodName : HttpMethod → Str
  | .GET => ofStr "GET"
  | .POST => ofStr "POST"
  | .PUT => ofStr "PUT"
  | .DELETE => ofStr "DELETE"
  | .HEAD => ofStr "HEAD"
  | .PATCH => ofStr "PATCH"
  | .OPTIONS => ofStr "OPTIONS"

/-- A server that answers every request with `301 Location: /x`. -/
def alwaysRedirect : NetOracle := fun _ =>
  ⟨301, ofStr "Moved Permanently", [(ofStr "Location", ofStr "/x")], [], []⟩

/-- A server that answers every request with a plain `200`. -/
def plainOk : NetOracle := fun _ =>
  ⟨200, ofStr "OK", [], [], []⟩

/-- A server that 301-redirects `http://a/old` to `/new` and otherwise
answers `200` with an `Echo` header naming the method it received. -/
def echoMethod : NetOracle := fun r =>
  if r.url = ofStr "http://a/old" then
    ⟨301, ofStr "Moved Permanently", [(ofStr "Location", ofStr "/new")], [], []⟩
  else
    ⟨200, ofStr "OK", [(ofStr "Echo", methodName r.method)], [], []⟩

end CoroHttp

namespace CoroHttp

/-! ## Claim theorems -/

/-- C7: `decode_chunked` on `"5\r\nHello\r\n6\r\n World\r\n0\r\n\r\n"`
yields exactly `"Hello World"` (hex size line, chunk bytes, CRLF, repeat to
the zero chunk), and the SSE stream `"event: m\nid: 7\ndata: a\ndata: b\n\n"`
parses to one event with type `m`, id `7` and data `"a\nb"` (data lines
joined by a single newline). -/
theorem chunked_and_sse_multiline_concrete :
    decode_chunked (ofStr "5\r\nHello\r\n6\r\n World\r\n0\r\n\r\n") =
      some (ofStr "Hello World") ∧
    parse_sse_stream (ofStr "event: m\nid: 7\ndata: a\ndata: b\n\n") =
      [⟨ofStr "m", ofStr "a\nb", ofStr "7", [], []⟩] := by
  exact ⟨by decide, by decide⟩

/-- C10: `decode_chunked` is NOT total — on the input consisting of a bare
`"\n"`, the first `getline` yields an empty line and `line.back()` is
evaluated before the `line.empty()` check, an out-of-bounds access on an
empty `std::string` (the model returns `none` exactly there). -/
theorem decode_chunked_empty_line_oob :
    decode_chunked (ofStr "\n") = none := by decide

/-- C6 counterexample: the stream consisting of the single line
`"retry: 100"` followed by a blank line dispatches NO event — the dispatch
guard sees the `retry` field, but `SseEvent::empty()` ignores `retry`, so
the event is dropped (the claim asserts exactly one event is emitted). -/
theorem sse_retry_only_event_dropped :
    parse_sse_stream (ofStr "retry: 100\n\n") = [] := by decide

/-- C8 counterexample: for the stream `"data: x\n"` (no terminating blank
line), whole-stream parsing dispatches the trailing event but feeding the
same lines to `parse_sse_line` one at a time dispatches nothing —
`parse_sse_line` has no end-of-stream handling. -/
theorem sse_incremental_drops_trailing :
    sseFeedLines (getlines (ofStr "data: x\n")) ≠
      parse_sse_stream (ofStr "data: x\n") := by decide

/-- C2 counterexample: two errors with the SAME kind tag but different
message strings get DIFFERENT retry decisions — `should_retry` substring-
matches `e.what()` ("timeout" occurs in one message, not the other), so
the decision does not depend only on the kind. -/
theorem should_retry_message_dependent :
    (HttpError.mk ErrorKind.timeoutKind (ofStr "Connection timeout")).kind =
      (HttpError.mk ErrorKind.timeoutKind (ofStr "deadline exceeded")).kind ∧
    should_retry ⟨3, 100, 2, 10000, true, false, false, 0⟩
      ⟨ErrorKind.timeoutKind, ofStr "Connection timeout"⟩ 0 = true ∧
    should_retry ⟨3, 100, 2, 10000, true, false, false, 0⟩
      ⟨ErrorKind.timeoutKind, ofStr "deadline exceeded"⟩ 0 = false := by
  refine ⟨rfl, by decide, by decide⟩

/-- C3 counterexample: with `max_redirects = 2` against a server that
always answers `301 Location: /x`, `execute` does NOT fail with a
`RedirectLimit` error once the hop budget is exhausted — it returns the
`301` response itself (with its `Location` still present), after 3 socket
round trips. -/
theorem redirect_limit_returns_response :
    (execute ⟨true, 2⟩ alwaysRedirect ⟨HttpMethod.GET, ofStr "http://a/old", []⟩).1.status_code
        = 301 ∧
    (execute ⟨true, 2⟩ alwaysRedirect ⟨HttpMethod.GET, ofStr "http://a/old", []⟩).1.get_header
        (ofStr "Location") = ofStr "/x" ∧
    (execute ⟨true, 2⟩ alwaysRedirect ⟨HttpMethod.GET, ofStr "http://a/old", []⟩).2 = 3 := by
  refine ⟨by decide, by decide, by decide⟩

/-- C4 counterexample: following a redirect of a HEAD request, the
synthesized follow-up request uses method GET, not HEAD — the server's
`Echo` header records that the second hop arrived as a GET. -/
theorem redirect_head_becomes_get :
    (execute ⟨true, 10⟩ echoMethod
        ⟨HttpMethod.HEAD, ofStr "http://a/old", [(ofStr "X", ofStr "1")]⟩).1.get_header
      (ofStr "Echo") = ofStr "GET" ∧
    (redirectRequest ⟨HttpMethod.HEAD, ofStr "http://a/old", []⟩
        (ofStr "http://a/new")).method ≠ HttpMethod.HEAD := by
  refine ⟨by decide, by decide⟩

end CoroHttp

namespace CoroHttp

/-! ## Helper lemmas -/

/-- Characterization of a false `SseEvent::empty()`. -/
theorem sseEmpty_false_iff (e : SseEvent) :
    e.empty = false ↔ (e.type ≠ [] ∨ e.id ≠ [] ∨ e.data ≠ []) := by
  simp [SseEvent.empty]
  tauto

/-- Characterization of a true `SseEvent::empty()`. -/
theorem sseEmpty_true_iff (e : SseEvent) :
    e.empty = true ↔ (e.type = [] ∧ e.id = [] ∧ e.data = []) := by
  simp [SseEvent.empty]
  tauto

/-- Reduction of the stream-parser loop body on a blank line. -/
theorem sseStreamStep_blank (st : SseState) :
    sseStreamStep st [] =
      if st.dataLines ≠ [] ∨ st.current.type ≠ [] ∨ st.current.id ≠ [] ∨
          st.current.retry ≠ [] then
        { current := SseEvent.init, dataLines := [],
          events := if ({ st.current with
              data := joinDataOnto st.current.data st.dataLines } : SseEvent).empty
            then st.events
            else st.events ++ [{ st.current with
              data := joinDataOnto st.current.data st.dataLines }] }
      else st := by
  unfold sseStreamStep
  simp

/-- End-of-stream dispatch equals the blank-line dispatch of the
incremental parser, as far as the emitted events are concerned. -/
theorem finish_eq_blank_step (st : SseState) :
    sseStreamFinish st = (parse_sse_line st []).events := by
  unfold sseStreamFinish parse_sse_line
  split <;> rfl

/-- Reflexivity of the case-insensitive comparison. -/
theorem strcasecmp_refl (a : Str) : strcasecmp_impl a a = true := by
  induction a with
  | nil => rfl
  | cons c t ih =>
    simp only [strcasecmp_impl, List.zip_cons_cons, List.all_cons, beq_self_eq_true,
      Bool.true_and, List.length_cons] at ih ⊢
    simpa using ih

/-- On a map with no duplicate keys, `lookup` returns the stored value. -/
theorem lookup_eq_some_of_mem (l : List (Str × Str)) (k : Str) (v : Str)
    (hnd : (l.map Prod.fst).Nodup) (h : (k, v) ∈ l) : l.lookup k = some v := by
  induction l with
  | nil => cases h
  | cons kv t ih =>
    obtain ⟨k', v'⟩ := kv
    simp only [List.map_cons, List.nodup_cons] at hnd
    rcases List.mem_cons.mp h with h1 | h1
    · obtain ⟨hk, hv⟩ := Prod.mk.injEq .. ▸ h1
      subst hk
      subst hv
      simp [List.lookup]
    · have hk : (k == k') = false := by
        rw [beq_eq_false_iff_ne]
        rintro rfl
        exact hnd.1 (List.mem_map_of_mem Prod.fst h1)
      simp only [List.lookup, hk]
      exact ih hnd.2 h1

/-- Lookup misses when the key is absent. -/
theorem lookup_eq_none_of_not_mem (l : List (Str × Str)) (k : Str)
    (h : ∀ v, (k, v) ∉ l) : l.lookup k = none := by
  induction l with
  | nil => rfl
  | cons kv t ih =>
    obtain ⟨k', v'⟩ := kv
    have hk : (k == k') = false := by
      rw [beq_eq_false_iff_ne]
      rintro rfl
      exact h v' (List.mem_cons_self _ _)
    simp only [List.lookup, hk]
    exact ih fun v hv => h v (List.mem_cons_of_mem _ hv)

/-- Every attempt whose response is not a 3xx performs exactly one socket
round trip, whatever the fuel and hop count. -/
theorem executeWithRedirects_non3xx (cfg : ClientConfig) (net : NetOracle)
    (fuel : Nat) (req : HttpRequest) (rc : Int)
    (h : ¬ (300 ≤ (net req).status_code ∧ (net req).status_code < 400)) :
    executeWithRedirects cfg net fuel req rc = (net req, 1) := by
  cases fuel with
  | zero => rfl
  | succ n =>
    simp only [executeWithRedirects, executeAttempt]
    rw [if_neg]
    rintro ⟨-, -, h1, h2⟩
    exact h ⟨h1, h2⟩

/-- Folding `add_header` over a header list appends it. -/
theorem foldl_add_header (hs : List (Str × Str)) (r : HttpRequest) :
    List.foldl (fun r kv => r.add_header kv.1 kv.2) r hs =
      ⟨r.method, r.url, r.headers ++ hs⟩ := by
  induction hs generalizing r with
  | nil =>
    cases r
    simp
  | cons kv t ih =>
    rw [List.foldl_cons, ih]
    simp [HttpRequest.add_header]

end CoroHttp

namespace CoroHttp

/-! ## Remaining claim theorems and witnesses -/

/-- C6 (amended): on a blank line (and for a reachable state, i.e. one
whose `current.data` accumulator is still empty), an event is dispatched
iff the event type, the id, or the joined data lines are nonempty — the
`retry` field alone never causes an emission (`SseEvent::empty()` ignores
it), and neither does a data-line list that joins to the empty string; the
trailing end-of-stream dispatch obeys the same condition. -/
theorem sse_blankline_dispatch (st : SseState) (h : st.current.data = []) :
    (sseStreamStep st []).events = st.events ++
      (if st.current.type ≠ [] ∨ st.current.id ≠ [] ∨ joinDataOnto [] st.dataLines ≠ []
        then [{ st.current with data := joinDataOnto [] st.dataLines }] else []) ∧
    sseStreamFinish st = st.events ++
      (if st.current.type ≠ [] ∨ st.current.id ≠ [] ∨ joinDataOnto [] st.dataLines ≠ []
        then [{ st.current with data := joinDataOnto [] st.dataLines }] else []) := by
  have hj : joinDataOnto st.current.data st.dataLines = joinDataOnto [] st.dataLines := by
    rw [h]
  have key : (if st.dataLines ≠ [] ∨ st.current.type ≠ [] ∨ st.current.id ≠ [] ∨
          st.current.retry ≠ [] then
        (if ({ st.current with
            data := joinDataOnto st.current.data st.dataLines } : SseEvent).empty
          then st.events
          else st.events ++ [{ st.current with
            data := joinDataOnto st.current.data st.dataLines }])
      else st.events) = st.events ++
      (if st.current.type ≠ [] ∨ st.current.id ≠ [] ∨ joinDataOnto [] st.dataLines ≠ []
        then [{ st.current with data := joinDataOnto [] st.dataLines }] else []) := by
    rw [hj]
    by_cases hG : st.dataLines ≠ [] ∨ st.current.type ≠ [] ∨ st.current.id ≠ [] ∨
        st.current.retry ≠ []
    · rw [if_pos hG]
      by_cases hc : st.current.type ≠ [] ∨ st.current.id ≠ [] ∨
          joinDataOnto [] st.dataLines ≠ []
      · rw [if_pos hc]
        have hne : ({ st.current with
            data := joinDataOnto [] st.dataLines } : SseEvent).empty = false := by
          rw [sseEmpty_false_iff]
          tauto
        rw [hne]
        simp
      · rw [if_neg hc]
        push_neg at hc
        have hemp : ({ st.current with
            data := joinDataOnto [] st.dataLines } : SseEvent).empty = true := by
          rw [sseEmpty_true_iff]
          exact ⟨hc.1, hc.2.1, hc.2.2⟩
        rw [hemp]
        simp
    · rw [if_neg hG]
      push_neg at hG
      have hjn : joinDataOnto [] st.dataLines = [] := by
        rw [hG.1]
        rfl
      rw [if_neg]
      · simp
      · push_neg
        exact ⟨hG.2.1, hG.2.2.1, hjn⟩
  constructor
  · rw [sseStreamStep_blank]
    by_cases hG : st.dataLines ≠ [] ∨ st.current.type ≠ [] ∨ st.current.id ≠ [] ∨
        st.current.retry ≠ []
    · rw [if_pos hG, ← key, if_pos hG]
    · rw [if_neg hG, ← key, if_neg hG]
  · unfold sseStreamFinish
    by_cases hG : st.dataLines ≠ [] ∨ st.current.type ≠ [] ∨ st.current.id ≠ [] ∨
        st.current.retry ≠ []
    · rw [if_pos hG, ← key, if_pos hG]
    · rw [if_neg hG, ← key, if_neg hG]

/-- Witness for C6 (amended): a state holding only an id `7` dispatches
exactly that event on a blank line. -/
theorem sse_blankline_dispatch_witness :
    (sseStreamStep ⟨⟨[], [], ofStr "7", [], []⟩, [], []⟩ []).events =
      [⟨[], [], ofStr "7", [], []⟩] := by
  have h := sse_blankline_dispatch ⟨⟨[], [], ofStr "7", [], []⟩, [], []⟩ rfl
  rw [h.1]
  decide

/-- C8 (amended): whole-stream SSE parsing equals feeding the stream's
lines one at a time to `parse_sse_line` followed by one final blank-line
step (the end-of-stream flush that `parse_sse_line` itself lacks); in
particular, for a stream that already ends with a blank line the extra
step is a no-op and the two parsers agree. -/
theorem stream_eq_incremental_plus_flush (s : Str) :
    parse_sse_stream s = sseFeedLines (getlines s ++ [[]]) := by
  unfold parse_sse_stream sseFeedLines
  rw [List.foldl_append, show sseStreamStep = parse_sse_line from rfl, finish_eq_blank_step]
  rfl

/-- C2 (amended): `should_retry` returns true iff the attempt budget is
not exhausted and one of the three enabled families matches — where the
timeout and connection families are substring tests on the error MESSAGE,
not on a kind tag. -/
theorem should_retry_characterization (p : RetryPolicy) (e : HttpError) (s : Int) :
    should_retry p e s = true ↔
      p.current_attempt < p.max_retries ∧
      ((p.retry_on_timeout = true ∧
          (strContains e.what (ofStr "timeout") = true ∨
            strContains e.what (ofStr "Timeout") = true ∨
            strContains e.what (ofStr "timed out") = true)) ∨
        (p.retry_on_connection_error = true ∧
          (strContains e.what (ofStr "Connection") = true ∨
            strContains e.what (ofStr "connection") = true ∨
            strContains e.what (ofStr "refused") = true ∨
            strContains e.what (ofStr "reset") = true ∨
            strContains e.what (ofStr "broken pipe") = true ∨
            strContains e.what (ofStr "network") = true)) ∨
        (p.retry_on_5xx = true ∧ 500 ≤ s ∧ s < 600)) := by
  unfold should_retry
  split_ifs with h1 h2 h3 h4
  · simp only [Bool.false_eq_true, false_iff]
    rintro ⟨hlt, -⟩
    omega
  · constructor
    · intro _
      simp only [Bool.and_eq_true, Bool.or_eq_true] at h2
      exact ⟨by omega, Or.inl ⟨h2.1, by tauto⟩⟩
    · intro _
      rfl
  · constructor
    · intro _
      simp only [Bool.and_eq_true, Bool.or_eq_true] at h3
      exact ⟨by omega, Or.inr (Or.inl ⟨h3.1, by tauto⟩)⟩
    · intro _
      rfl
  · constructor
    · intro _
      simp only [Bool.and_eq_true, decide_eq_true_eq] at h4
      exact ⟨by omega, Or.inr (Or.inr ⟨h4.1.1, h4.1.2, h4.2⟩)⟩
    · intro _
      rfl
  · simp only [Bool.false_eq_true, false_iff]
    rintro ⟨hlt, hd⟩
    rcases hd with hT | hC | h5
    · exact h2 (by simp only [Bool.and_eq_true, Bool.or_eq_true]; tauto)
    · exact h3 (by simp only [Bool.and_eq_true, Bool.or_eq_true]; tauto)
    · exact h4 (by simp only [Bool.and_eq_true, decide_eq_true_eq]; tauto)

end CoroHttp

namespace CoroHttp

/-- C5 (amended): at attempt 0 the delay is exactly `initial_delay`; at
attempt k ≥ 1, for any jitter in [0.75, 1.25], the delay lies between
`min(⌊0.75 · initial · factor^k⌋, max_delay)` (the `static_cast` truncates
to whole milliseconds, so the claimed real-valued lower bound can be
undershot by the fractional part) and `min(1.25 · initial · factor^k,
max_delay)`. -/
theorem get_delay_bounds (p : RetryPolicy) (j : ℚ)
    (hinit : 0 ≤ p.initial_delay) (hfac : 0 ≤ p.backoff_factor)
    (hj1 : 3/4 ≤ j) (hj2 : j ≤ 5/4) :
    (p.current_attempt = 0 → get_delay p j = p.initial_delay) ∧
    (1 ≤ p.current_attempt →
      min ⌊(3/4 : ℚ) * ((p.initial_delay : ℚ) * p.backoff_factor ^ p.current_attempt)⌋
          p.max_delay ≤ get_delay p j ∧
      (get_delay p j : ℚ) ≤
        (5/4 : ℚ) * ((p.initial_delay : ℚ) * p.backoff_factor ^ p.current_attempt) ∧
      get_delay p j ≤ p.max_delay) := by
  constructor
  · intro h0
    simp [get_delay, h0]
  · intro h1
    have hne : p.current_attempt ≠ 0 := by omega
    have hbq : (0 : ℚ) ≤ (p.initial_delay : ℚ) := by exact_mod_cast hinit
    set base : ℚ := (p.initial_delay : ℚ) * p.backoff_factor ^ p.current_attempt with hbase_def
    have hbase : 0 ≤ base := mul_nonneg hbq (zpow_nonneg hfac _)
    have hj0 : (0 : ℚ) ≤ j := le_trans (by norm_num) hj1
    have hbj : (0 : ℚ) ≤ base * j := mul_nonneg hbase hj0
    have key : get_delay p j =
        if p.max_delay < ⌊base * j⌋ then p.max_delay else ⌊base * j⌋ := by
      simp only [get_delay, truncToward0, if_neg hne, if_pos hbj]
    have hfl : (⌊base * j⌋ : ℚ) ≤ base * j := Int.floor_le _
    have hup : base * j ≤ (5/4 : ℚ) * base := by
      calc base * j ≤ base * (5/4) := mul_le_mul_of_nonneg_left hj2 hbase
        _ = (5/4 : ℚ) * base := mul_comm _ _
    have hlow : ⌊(3/4 : ℚ) * base⌋ ≤ ⌊base * j⌋ := by
      apply Int.floor_le_floor
      calc (3/4 : ℚ) * base = base * (3/4) := mul_comm _ _
        _ ≤ base * j := mul_le_mul_of_nonneg_left hj1 hbase
    rw [key]
    by_cases hcap : p.max_delay < ⌊base * j⌋
    · rw [if_pos hcap]
      refine ⟨min_le_right _ _, ?_, le_refl _⟩
      have hc : (p.max_delay : ℚ) ≤ (⌊base * j⌋ : ℚ) := by exact_mod_cast le_of_lt hcap
      exact le_trans hc (le_trans hfl hup)
    · rw [if_neg hcap]
      push_neg at hcap
      exact ⟨le_trans (min_le_left _ _) hlow, le_trans hfl hup, hcap⟩

/-- Witness for C5 (amended): the bounds at initial=100ms, factor=2,
attempt 2, jitter 1. -/
theorem get_delay_bounds_witness :
    min ⌊(3/4 : ℚ) * (((⟨3, 100, 2, 10000, true, true, true, 2⟩ : RetryPolicy).initial_delay : ℚ) *
          (⟨3, 100, 2, 10000, true, true, true, 2⟩ : RetryPolicy).backoff_factor ^
            (⟨3, 100, 2, 10000, true, true, true, 2⟩ : RetryPolicy).current_attempt)⌋
        (⟨3, 100, 2, 10000, true, true, true, 2⟩ : RetryPolicy).max_delay ≤
      get_delay ⟨3, 100, 2, 10000, true, true, true, 2⟩ 1 := by
  have h := get_delay_bounds ⟨3, 100, 2, 10000, true, true, true, 2⟩ 1
    (by norm_num) (by norm_num) (by norm_num) (by norm_num)
  exact (h.2 (by norm_num)).1

/-- C5 counterexample: with initial=10ms, factor=3, attempt 1, max=10s and
the legal jitter 0.76, the computed delay is 22ms, strictly below the
claimed lower bound `0.75 · 10 · 3^1 = 22.5`ms — the truncation to whole
milliseconds breaks the claim. -/
theorem get_delay_truncation_breaks_claim :
    get_delay ⟨3, 10, 3, 10000, true, false, false, 1⟩ (19/25) = 22 ∧
    (3/4 : ℚ) ≤ 19/25 ∧ (19/25 : ℚ) ≤ 5/4 ∧
    ¬ ((3/4 : ℚ) * ((10 : ℚ) * 3 ^ (1 : ℤ)) ≤ (22 : ℚ)) := by
  refine ⟨?_, by norm_num, by norm_num, by norm_num⟩
  simp [get_delay, truncToward0]
  norm_num [Int.floor_eq_iff]

end CoroHttp

namespace CoroHttp

/-- C9: `get_header` returns the exactly-matching (case-sensitive) value
when one exists; on an exact miss, the value of a header whose name
matches case-insensitively; and the empty string when nothing matches at
all — it never fails. -/
theorem get_header_spec (r : HttpResponse) (key : Str)
    (hnd : (r.headers.map Prod.fst).Nodup) :
    (∀ v, (key, v) ∈ r.headers → r.get_header key = v) ∧
    ((∀ v, (key, v) ∉ r.headers) →
      (∃ kv ∈ r.headers, strcasecmp_impl kv.1 key = true) →
      ∃ kv ∈ r.headers, strcasecmp_impl kv.1 key = true ∧ r.get_header key = kv.2) ∧
    ((∀ kv ∈ r.headers, strcasecmp_impl kv.1 key = false) → r.get_header key = []) := by
  refine ⟨?_, ?_, ?_⟩
  · intro v hv
    unfold HttpResponse.get_header
    rw [lookup_eq_some_of_mem _ _ _ hnd hv]
  · intro hno hex
    unfold HttpResponse.get_header
    rw [lookup_eq_none_of_not_mem _ _ hno]
    have hs : (r.headers.find? (fun kv => strcasecmp_impl kv.1 key)).isSome := by
      rw [List.find?_isSome]
      obtain ⟨kv, hmem, hci⟩ := hex
      exact ⟨kv, hmem, by simpa using hci⟩
    obtain ⟨kv', hfind⟩ := Option.isSome_iff_exists.mp hs
    refine ⟨kv', List.mem_of_find?_eq_some hfind, by simpa using List.find?_some hfind, ?_⟩
    rw [hfind]
  · intro hall
    unfold HttpResponse.get_header
    have hnone : r.headers.lookup key = none := by
      apply lookup_eq_none_of_not_mem
      intro v hv
      have hc := hall (key, v) hv
      rw [strcasecmp_refl] at hc
      cases hc
    rw [hnone]
    have hfn : r.headers.find? (fun kv => strcasecmp_impl kv.1 key) = none := by
      rw [List.find?_eq_none]
      intro x hx
      simp [hall x hx]
    rw [hfn]

/-- Witness for C9: an exact lookup on a one-header response. -/
theorem get_header_spec_witness :
    HttpResponse.get_header ⟨200, [], [(ofStr "Content-Type", ofStr "text/html")], [], []⟩
      (ofStr "Content-Type") = ofStr "text/html" :=
  (get_header_spec ⟨200, [], [(ofStr "Content-Type", ofStr "text/html")], [], []⟩
    (ofStr "Content-Type") (by decide)).1 (ofStr "text/html") (by decide)

/-- C3 (amended): once the hop count has reached `max_redirects`, the
executor performs one attempt and returns its response unchanged — a 3xx
at the limit is handed back to the caller as-is; no `RedirectLimit` error
exists anywhere in the code. -/
theorem redirect_budget_exhausted (cfg : ClientConfig) (net : NetOracle)
    (fuel : Nat) (req : HttpRequest) (rc : Int) (h : cfg.max_redirects ≤ rc) :
    executeWithRedirects cfg net fuel req rc = (net req, 1) := by
  cases fuel with
  | zero => rfl
  | succ n =>
    simp only [executeWithRedirects, executeAttempt]
    rw [if_neg]
    rintro ⟨-, hlt, -⟩
    omega

/-- Witness for C3 (amended): at the hop limit the always-redirecting
server's 301 is returned as-is. -/
theorem redirect_budget_exhausted_witness :
    executeWithRedirects ⟨true, 2⟩ alwaysRedirect 5 ⟨HttpMethod.GET, ofStr "http://a/", []⟩ 2 =
      (alwaysRedirect ⟨HttpMethod.GET, ofStr "http://a/", []⟩, 1) :=
  redirect_budget_exhausted ⟨true, 2⟩ alwaysRedirect 5
    ⟨HttpMethod.GET, ofStr "http://a/", []⟩ 2 (by decide)

/-- C4 (amended): the synthesized follow-up request always uses method
GET — for every original method, HEAD included — targets the resolved
location, and carries exactly the user-supplied headers of the original
request. -/
theorem redirect_request_always_get (req : HttpRequest) (loc : Str) :
    (redirectRequest req loc).method = HttpMethod.GET ∧
    (redirectRequest req loc).url = loc ∧
    (redirectRequest req loc).headers = req.headers := by
  unfold redirectRequest
  rw [foldl_add_header]
  exact ⟨rfl, rfl, by simp⟩

/-- C1: the executors never consult any pool — every attempt constructs a
fresh socket, so a sequence of requests whose responses are not redirects
opens exactly as many sockets as there are requests (not bounded by any
`max_per_origin`). -/
theorem no_pool_sockets_equal_requests (cfg : ClientConfig) (net : NetOracle)
    (reqs : List HttpRequest)
    (h : ∀ r, ¬ (300 ≤ (net r).status_code ∧ (net r).status_code < 400)) :
    runSequential cfg net reqs = reqs.length := by
  induction reqs with
  | nil => rfl
  | cons r t ih =>
    simp only [runSequential, execute,
      executeWithRedirects_non3xx cfg net _ r 0 (h r), ih, List.length_cons]
    omega

/-- Witness for C1: 10 sequential requests against a plain-200 server open
10 sockets, not 5. -/
theorem no_pool_sockets_equal_requests_witness :
    runSequential ⟨true, 10⟩ plainOk
      (List.replicate 10 ⟨HttpMethod.GET, ofStr "http://a/", []⟩) = 10 ∧ 5 < 10 := by
  refine ⟨?_, by decide⟩
  have h := no_pool_sockets_equal_requests ⟨true, 10⟩ plainOk
    (List.replicate 10 ⟨HttpMethod.GET, ofStr "http://a/", []⟩) (fun r => by simp [plainOk])
  simpa using h

end CoroHttp
